import Mathlib

/-!
A shallow embedding of the deduplication, analysis-reconciliation, selection
and persistence logic of `Crypto_News_Analyzer.py` (class `CryptoNewsAnalyzer`),
together with theorems settling the specification claims about it.

Modelling conventions:
* Python item dicts become the `Item` structure; `item.get(key, '')` becomes
  `Option.getD _ ""` on the corresponding optional field.
* `hashlib.md5(s.encode()).hexdigest()` is an external fixed-width digest that
  the specification treats as collision-free; it is modelled by an injective
  function on strings (`md5_hex`), so equality of digests coincides with
  equality of the hashed strings — exactly the ideal-hash reading the spec
  adopts ("any collision-resistant hash of fixed width is acceptable").
* Unix timestamps (`time.time()`) are modelled as integers: only subtraction
  and order comparison against `7 * 24 * 60 * 60 = 604800` matter to the code.
* The in-memory history dict `self.sent_news_hashes` becomes `Hist`, a map
  `String → Option Int`; dict assignment becomes `histInsert`.
* External effects — the Gemini call together with `json.loads` on its reply,
  `random.randint` / `random.sample`, and the file system — are modelled by
  explicit oracle parameters and outcome types.
-/

namespace CryptoNews

/-- A news item, as produced by the collectors: a loosely-typed dict whose
identifying fields are `title` and `link`; absent keys read as `''` via
`dict.get`. -/
structure Item where
  source : Option String
  title : Option String
  link : Option String
  summary : Option String
deriving DecidableEq

/-- `item.get('title', '')` -/
def Item.getTitle (it : Item) : String := it.title.getD ""

/-- `item.get('link', '')` -/
def Item.getLink (it : Item) : String := it.link.getD ""

/-- Model of `hashlib.md5(s.encode()).hexdigest()`: an external digest assumed
collision-free by the spec, modelled as an injective encoding of its input so
that digest equality is exactly input-string equality. -/
def md5_hex (s : String) : String := s

/-- `CryptoNewsAnalyzer._generate_news_hash`: hash of
`f"{item.get('title','')}|{item.get('link','')}"`. -/
def generate_news_hash (item : Item) : String :=
  md5_hex (item.getTitle ++ "|" ++ item.getLink)

/-! ### URL normalization (`_normalize_url`)

The source calls `urllib.parse.urlparse`, rebuilds the URL with
`urlunparse((scheme, netloc, path, '', '', ''))` and strips trailing slashes.
The definitions below model CPython's `urlsplit`/`_splitparams`/`urlunsplit`
on the component level used here. -/

/-- Characters CPython accepts inside a URL scheme. -/
def schemeChar (c : Char) : Bool :=
  c.isAlphanum || c = '+' || c = '-' || c = '.'

/-- Split a character list at the first occurrence of `c`:
`some (before, after)` when `c` occurs, `none` otherwise. -/
def splitFirst (c : Char) : List Char → Option (List Char × List Char)
  | [] => none
  | x :: xs =>
    if x = c then some ([], xs)
    else
      match splitFirst c xs with
      | some (a, b) => some (x :: a, b)
      | none => none

/-- The scheme-splitting step of `urlsplit`: `url.find(':')` with the scheme
validity check, lowercasing an accepted scheme. Returns `(scheme, rest)`. -/
def splitScheme (l : List Char) : List Char × List Char :=
  match splitFirst ':' l with
  | some (pre, rest) =>
    if !pre.isEmpty
        && (match pre with | c :: _ => c.isAlpha | [] => false)
        && pre.all schemeChar then
      (pre.map Char.toLower, rest)
    else ([], l)
  | none => ([], l)

/-- A character delimiting the end of the netloc in `urlsplit`. -/
def netlocDelim (c : Char) : Bool := c = '/' || c = '?' || c = '#'

/-- `_splitnetloc`: the netloc runs up to the first of `/`, `?`, `#`; the
delimiter stays with the remainder. -/
def splitNetloc (l : List Char) : List Char × List Char :=
  (l.takeWhile (fun c => !netlocDelim c), l.dropWhile (fun c => !netlocDelim c))

/-- `_splitparams`: `urlparse` cuts `;params` off the last path segment (or
off the whole url when it holds no `/`). Only the kept path part is returned,
since the source discards the params component. -/
def dropParams (l : List Char) : List Char :=
  if l.contains '/' then
    let r := l.reverse
    let seg := (r.takeWhile (fun c => c ≠ '/')).reverse
    let pre := (r.dropWhile (fun c => c ≠ '/')).reverse
    match splitFirst ';' seg with
    | some (a, _) => pre ++ a
    | none => l
  else
    match splitFirst ';' l with
    | some (a, _) => a
    | none => l

/-- The `(scheme, netloc, path)` triple of `urlparse` (query, fragment and
params are dropped by the caller, so they are not retained). -/
structure ParsedUrl where
  scheme : List Char
  netloc : List Char
  path : List Char
deriving DecidableEq

/-- Model of `urllib.parse.urlparse` restricted to the components the source
keeps: scheme split, `//netloc` split, fragment split, query split, params
split. -/
def urlparseModel (url : List Char) : ParsedUrl :=
  let (scheme, rest1) := splitScheme url
  let (netloc, rest2) :=
    match rest1 with
    | '/' :: '/' :: r => splitNetloc r
    | _ => ([], rest1)
  let beforeFrag :=
    match splitFirst '#' rest2 with
    | some (a, _) => a
    | none => rest2
  let beforeQuery :=
    match splitFirst '?' beforeFrag with
    | some (a, _) => a
    | none => beforeFrag
  { scheme := scheme, netloc := netloc, path := dropParams beforeQuery }

/-- Model of `urlunparse((scheme, netloc, path, '', '', ''))`: empty params,
query and fragment, so only the netloc/scheme reassembly logic of
`urlunsplit` remains. -/
def urlunparseNoQuery (p : ParsedUrl) : List Char :=
  let url1 :=
    if !p.netloc.isEmpty
        || (match p.path with | '/' :: '/' :: _ => true | _ => false) then
      let u :=
        match p.path with
        | [] => []
        | c :: cs => if c = '/' then c :: cs else '/' :: c :: cs
      '/' :: '/' :: (p.netloc ++ u)
    else p.path
  if p.scheme.isEmpty then url1 else p.scheme ++ ':' :: url1

/-- `str.rstrip('/')`. -/
def rstripSlash (l : List Char) : List Char :=
  (l.reverse.dropWhile (fun c => c = '/')).reverse

/-- `CryptoNewsAnalyzer._normalize_url`: keep scheme, netloc and path only,
then remove the trailing slash. -/
def normalize_url (url : String) : String :=
  String.mk (rstripSlash (urlunparseNoQuery (urlparseModel url.data)))

/-- `CryptoNewsAnalyzer._generate_url_hash`: `None` when the link is empty or
absent, otherwise the digest of the normalized link. -/
def generate_url_hash (item : Item) : Option String :=
  let url := item.getLink
  if url = "" then none else some (md5_hex (normalize_url url))

/-! ### History store -/

/-- The in-memory history mapping `self.sent_news_hashes`:
fingerprint → last-seen timestamp. -/
abbrev Hist := String → Option Int

/-- The empty history dict. -/
def emptyHist : Hist := fun _ => none

/-- Dict assignment `h[k] = t`. -/
def histInsert (h : Hist) (k : String) (t : Int) : Hist :=
  fun x => if x = k then some t else h x

/-- Dict membership `k in h`. -/
def histContains (h : Hist) (k : String) : Bool := (h k).isSome

/-- The state of the persisted history file as `_load_history` can encounter
it: absent (`os.path.exists` false), present but failing to open/parse
(the `except` branch), or a readable JSON object. -/
inductive Storage
  | missing
  | unreadable
  | stored (m : String → Option Int)

/-- `CryptoNewsAnalyzer._load_history`: missing or unreadable storage yields
the empty mapping; stored contents are filtered to entries with
`now - timestamp < 7 * 24 * 60 * 60`. -/
def load_history (s : Storage) (now : Int) : Hist :=
  match s with
  | .missing => emptyHist
  | .unreadable => emptyHist
  | .stored m => fun k =>
    match m k with
    | some t => if now - t < 604800 then some t else none
    | none => none

/-! ### Saving the history (`_save_history`)

The source opens `self.history_file` in mode `'w'` — which truncates the
target in place — and then streams `json.dump` into it, the whole wrapped in
a `try/except` that logs and swallows any error.  The model below tracks the
on-disk state across the possible outcomes of that sequence. -/

/-- On-disk state of the history file. -/
inductive FileData
  | absent
  | content (s : String)
deriving DecidableEq

/-- The serialized form `json.dump` writes for a history mapping (association
list view of the dict). -/
def dumpJson (entries : List (String × Int)) : String :=
  "\x7b" ++
    String.intercalate ", "
      (entries.map (fun p => "\"" ++ p.1 ++ "\": " ++ toString p.2)) ++
  "\x7d"

/-- Outcomes of one `_save_history` call: the `open` itself raises (caught by
the `except`), the process crashes after the truncating `open` but before
`json.dump` completes, or the write completes. -/
inductive SaveOutcome
  | openFails
  | crashAfterOpen
  | complete
deriving DecidableEq

/-- `CryptoNewsAnalyzer._save_history`: resulting file state, paired with
whether an exception escapes to the caller (the blanket `except` makes that
component `false` for every outcome that returns at all). -/
def save_history (prev : FileData) (entries : List (String × Int)) :
    SaveOutcome → FileData × Bool
  | .openFails => (prev, false)
  | .crashAfterOpen => (.content "", false)
  | .complete => (.content (dumpJson entries), false)

/-! ### Deduplication -/

/-- `CryptoNewsAnalyzer._is_duplicate`: the title+link hash, then — when the
item has a URL hash at all — the URL-only hash, are looked up in the history
dict.  Membership alone is consulted; timestamps are not read here. -/
def is_duplicate (h : Hist) (item : Item) : Bool :=
  if histContains h (generate_news_hash item) then true
  else
    match generate_url_hash item with
    | some u => histContains h u
    | none => false

/-- `CryptoNewsAnalyzer._mark_as_analyzed`: store the title+link hash, and the
URL hash when present, at the current time. -/
def mark_as_analyzed (h : Hist) (item : Item) (now : Int) : Hist :=
  let h1 := histInsert h (generate_news_hash item) now
  match generate_url_hash item with
  | some u => histInsert h1 u now
  | none => h1

/-- `CryptoNewsAnalyzer.filter_duplicates`: walk the items in order, keeping
the non-duplicates in order and counting the duplicates. -/
def filter_duplicates (h : Hist) : List Item → List Item × Nat
  | [] => ([], 0)
  | it :: rest =>
    let r := filter_duplicates h rest
    if is_duplicate h it then (r.1, r.2 + 1) else (it :: r.1, r.2)

/-- `_is_duplicate` in state-passing form, threading `self.sent_news_hashes`
through the method: the body only reads the dict, so the state out is the
state in. -/
def is_duplicate_st (h : Hist) (item : Item) : Bool × Hist :=
  (is_duplicate h item, h)

/-- `filter_duplicates` in state-passing form: the loop body calls
`_is_duplicate` on the current state and performs no history write. -/
def filter_duplicates_st : Hist → List Item → (List Item × Nat) × Hist
  | h, [] => (([], 0), h)
  | h, it :: rest =>
    let d := is_duplicate_st h it
    let r := filter_duplicates_st d.2 rest
    if d.1 then ((r.1.1, r.1.2 + 1), r.2) else ((it :: r.1.1, r.1.2), r.2)

/-! ### Analysis (`analyze_with_gemini`) -/

/-- One per-item verdict as parsed out of the model's JSON reply
(`analysis[item_key]`); every field is read with `.get(..., default)`. -/
structure ItemVerdict where
  is_opportunity : Option Bool
  opportunity_type : Option String
  risk_level : Option String
  explanation : Option String
deriving DecidableEq

/-- The `ai_analysis` value attached to an item: a parsed verdict, or the
degraded dict `{'explanation': response_text[:200]}` built when the JSON
parse fails. -/
inductive AiAnalysis
  | verdict (v : ItemVerdict)
  | degraded (excerpt : String)
deriving DecidableEq

/-- An item after `analyze_with_gemini` enriched it in place with
`ai_analysis` and `is_opportunity`. -/
structure AnalyzedItem where
  base : Item
  ai_analysis : Option AiAnalysis
  is_opportunity : Bool
deriving DecidableEq

/-- A JSON value found under a reconciliation key `item_{idx+1}`: either a
JSON object — whose relevant fields the source reads with `.get` defaults —
or a non-object value (number, string, list, null…), on which
`item_analysis.get('is_opportunity', False)` raises `AttributeError`. -/
inductive JsonValue
  | dict (v : ItemVerdict)
  | nonDict
deriving DecidableEq

/-- Outcome of one batch's external interaction: `model.generate_content`
raises, or returns text on which `json.loads` fails, or returns text parsing
to a JSON object (modelled as a key → JSON-value map; the values need not be
objects). -/
inductive GeminiOutcome
  | callError
  | unparseable (responseText : String)
  | parsed (analysis : String → Option JsonValue)

/-- The reconciliation loop of the parsed-JSON branch: for batch position
`idx` (0-based), key `item_{idx+1}` mapping to an object attaches its
verdict, a missing key attaches a null verdict, and a key mapping to a
non-object value raises `AttributeError` mid-loop (line 444) — the inner
`except` only catches `JSONDecodeError`, so the loop aborts.  Returns the
items appended so far and whether the loop raised. -/
def attachVerdicts (m : String → Option JsonValue) :
    Nat → List Item → List AnalyzedItem × Bool
  | _, [] => ([], false)
  | idx, it :: rest =>
    match m ("item_" ++ toString (idx + 1)) with
    | some (JsonValue.dict v) =>
      let r := attachVerdicts m (idx + 1) rest
      (⟨it, some (AiAnalysis.verdict v), v.is_opportunity.getD false⟩ :: r.1,
        r.2)
    | some JsonValue.nonDict => ([], true)
    | none =>
      let r := attachVerdicts m (idx + 1) rest
      (⟨it, none, false⟩ :: r.1, r.2)

/-- Processing of one batch under its outcome: a failed call or an
unparseable reply appends every batch item once, with a null or degraded
verdict.  A parsed reply runs the reconciliation loop; if that loop raises
mid-batch, the outer `except Exception` (line 462) appends *every* batch
item once more with a null verdict — and since the list holds references to
the very dicts the handler overwrites, the entries already appended show the
overwritten null verdict too. -/
def processBatch (o : GeminiOutcome) (batch : List Item) : List AnalyzedItem :=
  match o with
  | .callError => batch.map (fun it => ⟨it, none, false⟩)
  | .unparseable t =>
    batch.map (fun it => ⟨it, some (AiAnalysis.degraded (t.take 200)), false⟩)
  | .parsed m =>
    if (attachVerdicts m 0 batch).2 then
      (attachVerdicts m 0 batch).1.map
          (fun a => ⟨a.base, none, false⟩) ++
        batch.map (fun it => ⟨it, none, false⟩)
    else (attachVerdicts m 0 batch).1

/-- The batching loop `for i in range(0, len(items), 5)`: slice off five items
at a time, process each slice under the oracle's outcome for that batch
index, and append the results in order. -/
def analyzeGo (oracle : Nat → GeminiOutcome) :
    Nat → List Item → List AnalyzedItem
  | _, [] => []
  | bIdx, x :: xs =>
    processBatch (oracle bIdx) ((x :: xs).take 5) ++
      analyzeGo oracle (bIdx + 1) ((x :: xs).drop 5)
termination_by _ l => l.length
decreasing_by simp [List.length_drop]; omega

/-- `CryptoNewsAnalyzer.analyze_with_gemini`: with no API key the method
returns `[]` immediately; otherwise the items are processed in batches of
five. -/
def analyze_with_gemini (apiKey : Bool) (oracle : Nat → GeminiOutcome)
    (items : List Item) : List AnalyzedItem :=
  if apiKey then analyzeGo oracle 0 items else []

/-! ### Opportunity selection -/

/-- `CryptoNewsAnalyzer.filter_opportunities`:
`[item for item in items if item.get('is_opportunity', False)]`. -/
def filter_opportunities (items : List AnalyzedItem) : List AnalyzedItem :=
  items.filter (fun it => it.is_opportunity)

/-- Model of `random.sample(l, m)`: the RNG is an oracle choosing one index
per round; the chosen element is removed before the next draw (sampling
without replacement). -/
def randomSample (choose : Nat → Nat) : Nat → List AnalyzedItem → List AnalyzedItem
  | 0, _ => []
  | _ + 1, [] => []
  | m + 1, x :: xs =>
    (x :: xs).get ⟨choose m % (x :: xs).length, Nat.mod_lt _ (Nat.succ_pos _)⟩ ::
      randomSample choose m
        ((x :: xs).eraseIdx (choose m % (x :: xs).length))

/-- The selection step of `run_workflow` (lines 637–642): when opportunities
exist, draw `max_posts = randint(1, 3)` (the argument `k`) and sample
`min(max_posts, len(opportunities))` of them; otherwise select nothing. -/
def select_opportunities (choose : Nat → Nat) (k : Nat)
    (analyzed : List AnalyzedItem) : List AnalyzedItem :=
  let opps := filter_opportunities analyzed
  if opps.isEmpty then [] else randomSample choose (min k opps.length) opps

/-! ### Run skeleton (history-relevant part of `run_workflow`) -/

/-- The post-analysis marking loop of `run_workflow`:
`for item in analyzed_items: self._mark_as_analyzed(item)`. -/
def mark_all (now : Int) (h : Hist) (its : List AnalyzedItem) : Hist :=
  its.foldl (fun acc it => mark_as_analyzed acc it.base now) h

/-- The history component of one `run_workflow` invocation: load, dedup-check
(no history effect), analyze the new items, then mark every analyzed item.
The early return on an empty new-item list leaves the history as loaded. -/
def run_workflow_hist (storage : Storage) (now : Int) (apiKey : Bool)
    (oracle : Nat → GeminiOutcome) (items : List Item) : Hist :=
  let h0 := load_history storage now
  let ni := (filter_duplicates h0 items).1
  if ni.isEmpty then h0
  else mark_all now h0 (analyze_with_gemini apiKey oracle ni)

/-! ### Spec-side definitions for the refinement comparisons -/

/-- Written from the spec's words for C1: a fingerprint counts only when it
is present *and unexpired* (`now - last_seen < 604800`). -/
def fingerprint_unexpired (h : Hist) (now : Int) (fp : String) : Bool :=
  match h fp with
  | some t => decide (now - t < 604800)
  | none => false

/-- Written from the spec's words for C1: an item is a duplicate iff its
content fingerprint OR its URL fingerprint is present and unexpired. -/
def duplicate_per_spec (h : Hist) (now : Int) (item : Item) : Bool :=
  fingerprint_unexpired h now (generate_news_hash item) ||
    (match generate_url_hash item with
     | some u => fingerprint_unexpired h now u
     | none => false)

/-- Written from the spec's words for C7: after any save outcome the file
holds either the previously persisted state or the fully written new
state. -/
def atomic_save_per_spec (prev : FileData) (entries : List (String × Int))
    (o : SaveOutcome) : Prop :=
  (save_history prev entries o).1 = prev ∨
    (save_history prev entries o).1 = FileData.content (dumpJson entries)

instance (prev : FileData) (entries : List (String × Int)) (o : SaveOutcome) :
    Decidable (atomic_save_per_spec prev entries o) := by
  unfold atomic_save_per_spec; infer_instance

/-! ### Concrete fixtures used by counterexamples and witnesses -/

/-- An item whose content fingerprint is the digest of `"a|"`. -/
def itemC1 : Item := ⟨none, some "a", none, none⟩

/-- A history holding `itemC1`'s content fingerprint with an *expired*
timestamp (`last_seen = 0`). -/
def histC1 : Hist := fun k => if k = md5_hex "a|" then some 0 else none

/-- A history holding `itemC1`'s content fingerprint with a fresh
timestamp. -/
def histW1 : Hist := fun k => if k = md5_hex "a|" then some 50 else none

/-- Title `"a|b"` with link `"c"`: its title+link string is `"a|b|c"`. -/
def itemC5a : Item := ⟨none, some "a|b", some "c", none⟩

/-- Title `"a"` with link `"b|c"`: its title+link string is also
`"a|b|c"`. -/
def itemC5b : Item := ⟨none, some "a", some "b|c", none⟩

/-- A previously persisted, valid history file. -/
def fileC7 : FileData := FileData.content "\x7b\"a\": 5\x7d"

/-- Seven distinct items: the batching loop forms batches of 5 and 2. -/
def itemsW3 : List Item :=
  [⟨none, some "n1", none, none⟩, ⟨none, some "n2", none, none⟩,
   ⟨none, some "n3", none, none⟩, ⟨none, some "n4", none, none⟩,
   ⟨none, some "n5", none, none⟩, ⟨none, some "n6", none, none⟩,
   ⟨none, some "n7", none, none⟩]

/-- Outcomes for `itemsW3`: the first batch parses to a JSON object holding
only `item_1` (a well-formed verdict object), the second batch's call
raises. -/
def oracleW3 : Nat → GeminiOutcome :=
  fun n =>
    if n = 0 then
      GeminiOutcome.parsed
        (fun k =>
          if k = "item_1" then
            some (JsonValue.dict ⟨some true, none, none, none⟩)
          else none)
    else GeminiOutcome.callError

/-- First item of the C3 counterexample batch. -/
def itemC3a : Item := ⟨none, some "c3a", none, none⟩

/-- Second item of the C3 counterexample batch. -/
def itemC3b : Item := ⟨none, some "c3b", none, none⟩

/-- A parsed reply mapping `item_1` to a verdict object but `item_2` to a
non-object JSON value: the reconciliation loop appends the first item, then
raises at the second, and the outer handler re-appends the whole batch. -/
def oracleC3 : Nat → GeminiOutcome :=
  fun _ =>
    GeminiOutcome.parsed
      (fun k =>
        if k = "item_1" then
          some (JsonValue.dict ⟨some true, none, none, none⟩)
        else if k = "item_2" then some JsonValue.nonDict
        else none)

/-- Three analyzed items, two of them flagged as opportunities. -/
def analyzedW9 : List AnalyzedItem :=
  [⟨⟨none, some "o1", none, none⟩, none, true⟩,
   ⟨⟨none, some "x1", none, none⟩, none, false⟩,
   ⟨⟨none, some "o2", none, none⟩, none, true⟩]

/-! ## Helper lemmas -/

theorem string_data_append (s t : String) : (s ++ t).data = s.data ++ t.data := by
  cases s; cases t; rfl

theorem string_eq_of_data {s t : String} (h : s.data = t.data) : s = t := by
  cases s; cases t; exact congrArg String.mk h

theorem pipe_append_inj (a : List Char) : ∀ (c b d : List Char),
    '|' ∉ a → '|' ∉ c → a ++ '|' :: b = c ++ '|' :: d → a = c ∧ b = d := by
  induction a with
  | nil =>
    intro c b d _ hc h
    cases c with
    | nil => simpa using h
    | cons y ys =>
      simp only [List.nil_append, List.cons_append, List.cons.injEq] at h
      exact absurd (h.1 ▸ List.mem_cons_self y ys) hc
  | cons x xs ih =>
    intro c b d ha hc h
    cases c with
    | nil =>
      simp only [List.nil_append, List.cons_append, List.cons.injEq] at h
      exact absurd (h.1.symm ▸ List.mem_cons_self x xs) ha
    | cons y ys =>
      simp only [List.cons_append, List.cons.injEq] at h
      obtain ⟨hxy, hrest⟩ := h
      have hr := ih ys b d (fun hm => ha (List.mem_cons_of_mem _ hm))
        (fun hm => hc (List.mem_cons_of_mem _ hm)) hrest
      exact ⟨by rw [hxy, hr.1], hr.2⟩

theorem histContains_insert (h : Hist) (k k2 : String) (t : Int) :
    histContains (histInsert h k t) k2 = (k2 = k || histContains h k2) := by
  unfold histContains histInsert
  by_cases he : k2 = k <;> simp [he]

/-! ## Claim C4 -/

/-- Claim C4: the URL fingerprint is `none` exactly when the item's link is
empty or absent; otherwise it is the digest of the normalized link (scheme +
host + path, query/fragment/trailing-slash stripped), so the fingerprints of
`https://x.com/a?x=1#y` and `https://x.com/a/` agree and both differ from the
fingerprint of `https://x.com/b`. -/
theorem C4_url_fingerprint :
    (∀ item : Item, generate_url_hash item =
      if item.getLink = "" then none
      else some (md5_hex (normalize_url item.getLink))) ∧
    (∀ item : Item, generate_url_hash item = none ↔ item.getLink = "") ∧
    generate_url_hash ⟨none, none, some "https://x.com/a?x=1#y", none⟩ =
      generate_url_hash ⟨none, none, some "https://x.com/a/", none⟩ ∧
    generate_url_hash ⟨none, none, some "https://x.com/a?x=1#y", none⟩ ≠
      generate_url_hash ⟨none, none, some "https://x.com/b", none⟩ ∧
    generate_url_hash ⟨none, none, some "https://x.com/a/", none⟩ ≠
      generate_url_hash ⟨none, none, some "https://x.com/b", none⟩ := by
  refine ⟨fun item => rfl, fun item => ?_, by decide, by decide, by decide⟩
  unfold generate_url_hash
  by_cases h : item.getLink = "" <;> simp [h]

/-! ## Claim C5 -/

/-- Claim C5 fails as stated: `itemC5a` and `itemC5b` differ in both title and
link, yet their title+link strings are both `"a|b|c"`, so their content
fingerprints coincide — changing the title (or link) does not always change
the fingerprint. -/
theorem C5_cex :
    generate_news_hash itemC5a = generate_news_hash itemC5b ∧
    itemC5a.getTitle ≠ itemC5b.getTitle ∧
    itemC5a.getLink ≠ itemC5b.getLink := by
  decide

/-- Claim C5 (amended): the content fingerprint is a deterministic function of
the `(title, link)` pair — equal pairs give equal fingerprints — and for items
whose titles contain no `'|'` (the separator of the hashed string), changing
the title or the link changes the fingerprint. -/
theorem C5_fingerprint_amended (i1 i2 : Item) :
    (i1.getTitle = i2.getTitle → i1.getLink = i2.getLink →
      generate_news_hash i1 = generate_news_hash i2) ∧
    ('|' ∉ i1.getTitle.data → '|' ∉ i2.getTitle.data →
      generate_news_hash i1 = generate_news_hash i2 →
      i1.getTitle = i2.getTitle ∧ i1.getLink = i2.getLink) := by
  constructor
  · intro ht hl
    unfold generate_news_hash
    rw [ht, hl]
  · intro p1 p2 he
    unfold generate_news_hash md5_hex at he
    have hd := congrArg String.data he
    rw [string_data_append, string_data_append, string_data_append,
      string_data_append] at hd
    have hpipe : ("|" : String).data = ['|'] := rfl
    rw [hpipe] at hd
    have hps := pipe_append_inj i1.getTitle.data i2.getTitle.data
      i1.getLink.data i2.getLink.data p1 p2 (by simpa using hd)
    exact ⟨string_eq_of_data hps.1, string_eq_of_data hps.2⟩

/-- Witness for C5's amended theorem at concrete items: two items agreeing on
title and link (but differing in source) get the same fingerprint, and from
fingerprint equality the title and link are recovered. -/
theorem C5_fingerprint_amended_witness :
    generate_news_hash ⟨some "s1", some "t", some "u", none⟩ =
      generate_news_hash ⟨some "s2", some "t", some "u", none⟩ ∧
    Item.getTitle ⟨some "s1", some "t", some "u", none⟩ =
      Item.getTitle ⟨some "s2", some "t", some "u", none⟩ ∧
    Item.getLink ⟨some "s1", some "t", some "u", none⟩ =
      Item.getLink ⟨some "s2", some "t", some "u", none⟩ := by
  have h1 := (C5_fingerprint_amended ⟨some "s1", some "t", some "u", none⟩
    ⟨some "s2", some "t", some "u", none⟩).1 rfl rfl
  have h2 := (C5_fingerprint_amended ⟨some "s1", some "t", some "u", none⟩
    ⟨some "s2", some "t", some "u", none⟩).2 (by decide) (by decide) h1
  exact ⟨h1, h2.1, h2.2⟩

/-! ## Claim C6 -/

/-- Claim C6: loading a stored history returns exactly the entries with
`now - last_seen < 604800`; entries 7 days old or older are excluded and are
absent from subsequent containment checks; missing or unreadable storage
loads as the empty mapping (the function is total, so the caller never
fails). -/
theorem C6_load_history (m : String → Option Int) (now : Int) :
    (∀ k t, load_history (Storage.stored m) now k = some t ↔
      m k = some t ∧ now - t < 604800) ∧
    load_history Storage.missing now = emptyHist ∧
    load_history Storage.unreadable now = emptyHist ∧
    (∀ k t, m k = some t → 604800 ≤ now - t →
      histContains (load_history (Storage.stored m) now) k = false) := by
  refine ⟨fun k t => ?_, rfl, rfl, fun k t hm hexp => ?_⟩
  · unfold load_history
    cases hm : m k with
    | none => simp [hm]
    | some t2 =>
      by_cases hlt : now - t2 < 604800
      · simp only [hm, if_pos hlt, Option.some.injEq]
        constructor
        · intro h; exact ⟨h, h ▸ hlt⟩
        · intro h; exact h.1
      · simp only [hm, if_neg hlt]
        constructor
        · intro h; exact absurd h (by simp)
        · intro h; exact absurd (Option.some.inj h.1 ▸ h.2) hlt
  · unfold histContains
    have h2 : load_history (Storage.stored m) now k =
        (match m k with
         | some t => if now - t < 604800 then some t else none
         | none => none) := rfl
    rw [h2, hm]
    show (if now - t < 604800 then some t else none).isSome = false
    rw [if_neg (by omega)]
    rfl

/-- Witness for C6 at a concrete stored mapping: an entry exactly 7 days old
is absent from containment checks after load. -/
theorem C6_load_history_witness :
    histContains (load_history
      (Storage.stored (fun k => if k = "x" then some 0 else none)) 604800)
      "x" = false :=
  (C6_load_history (fun k => if k = "x" then some 0 else none) 604800).2.2.2
    "x" 0 (by simp) (by decide)

/-! ## Claim C7 -/

/-- Claim C7 fails as stated: `_save_history` opens the history file with the
truncating mode `'w'`, so a crash after the open and before `json.dump`
completes leaves an empty file — neither the previously persisted state nor
the new state. -/
theorem C7_cex :
    ¬ atomic_save_per_spec fileC7 [("a", 5)] SaveOutcome.crashAfterOpen ∧
    (save_history fileC7 [("a", 5)] SaveOutcome.crashAfterOpen).1 =
      FileData.content "" := by
  decide

/-- Claim C7 (amended): `_save_history` writes the full mapping in place with
a truncating open; a completed save persists the whole serialized mapping, a
failure to open leaves the previous file and is swallowed by the `except`
(never fatal to the caller — the second component is `false` for every
outcome), but a crash between the open and the completed dump leaves a
truncated file rather than the previous state. -/
theorem C7_save_amended (prev : FileData) (entries : List (String × Int)) :
    (save_history prev entries SaveOutcome.complete).1 =
      FileData.content (dumpJson entries) ∧
    (∀ o, (save_history prev entries o).2 = false) ∧
    (save_history prev entries SaveOutcome.openFails).1 = prev ∧
    (save_history prev entries SaveOutcome.crashAfterOpen).1 =
      FileData.content "" := by
  refine ⟨rfl, fun o => ?_, rfl, rfl⟩
  cases o <;> rfl

/-! ## Dedup helper lemmas -/

theorem contains_mark_news (h : Hist) (it : Item) (now : Int) :
    histContains (mark_as_analyzed h it now) (generate_news_hash it) = true := by
  unfold mark_as_analyzed
  cases hu : generate_url_hash it with
  | none => simp [histContains_insert]
  | some u => simp [histContains_insert]

theorem contains_mark_url (h : Hist) (it : Item) (now : Int) (u : String)
    (hu : generate_url_hash it = some u) :
    histContains (mark_as_analyzed h it now) u = true := by
  unfold mark_as_analyzed
  rw [hu]
  simp [histContains_insert]

theorem is_duplicate_iff (h : Hist) (it : Item) :
    is_duplicate h it = true ↔
      histContains h (generate_news_hash it) = true ∨
        ∃ u, generate_url_hash it = some u ∧ histContains h u = true := by
  unfold is_duplicate
  by_cases hc : histContains h (generate_news_hash it) <;> simp [hc]
  cases hu : generate_url_hash it <;> simp

theorem filter_duplicates_fst (h : Hist) (items : List Item) :
    (filter_duplicates h items).1 =
      items.filter (fun it => !is_duplicate h it) := by
  induction items with
  | nil => rfl
  | cons it rest ih =>
    unfold filter_duplicates
    by_cases hd : is_duplicate h it <;> simp [hd, List.filter_cons, ih]

theorem filter_duplicates_count (h : Hist) (items : List Item) :
    (filter_duplicates h items).1.length + (filter_duplicates h items).2 =
      items.length := by
  induction items with
  | nil => rfl
  | cons it rest ih =>
    unfold filter_duplicates
    by_cases hd : is_duplicate h it <;> simp [hd] <;> omega

/-! ## Claim C1 -/

/-- Claim C1 fails as stated: `histC1` holds `itemC1`'s content fingerprint
with timestamp `0`, expired at `now = 604800`; the spec's condition classifies
the item as new, but `_is_duplicate` looks only at presence and classifies it
as a duplicate, so `filter_duplicates` does not place it among the new
items. -/
theorem C1_cex :
    is_duplicate histC1 itemC1 = true ∧
    duplicate_per_spec histC1 604800 itemC1 = false ∧
    (filter_duplicates histC1 [itemC1]).1 = [] := by
  decide

/-- Claim C1 (amended): the deduplication check classifies an item as a
duplicate iff its content fingerprint or its URL fingerprint is *present* in
the history mapping, regardless of the entry's timestamp — expiry is enforced
only at load time; `filter_duplicates` keeps exactly the non-duplicates, in
input order, counting the rest.  On a history all of whose entries are
unexpired (as `_load_history` guarantees at load time), the presence test
coincides with the spec's present-and-unexpired test. -/
theorem C1_dedup_amended (h : Hist) (items : List Item) (item : Item) :
    (filter_duplicates h items).1 =
      items.filter (fun it => !is_duplicate h it) ∧
    (filter_duplicates h items).1.length + (filter_duplicates h items).2 =
      items.length ∧
    (is_duplicate h item = true ↔
      histContains h (generate_news_hash item) = true ∨
        ∃ u, generate_url_hash item = some u ∧ histContains h u = true) ∧
    (∀ now : Int, (∀ k t, h k = some t → now - t < 604800) →
      is_duplicate h item = duplicate_per_spec h now item) := by
  refine ⟨filter_duplicates_fst h items, filter_duplicates_count h items,
    is_duplicate_iff h item, fun now hfresh => ?_⟩
  have key : ∀ fp, fingerprint_unexpired h now fp = histContains h fp := by
    intro fp
    unfold fingerprint_unexpired histContains
    cases hfp : h fp with
    | none => rfl
    | some t => simp [hfresh fp t hfp]
  unfold is_duplicate duplicate_per_spec
  by_cases hc : histContains h (generate_news_hash item) <;>
    cases hu : generate_url_hash item <;> simp [hc, hu, key]

/-- Witness for C1's amended theorem: on a history whose single entry is
fresh at `now = 100`, the code's presence test agrees with the spec's
present-and-unexpired test. -/
theorem C1_dedup_amended_witness :
    is_duplicate histW1 itemC1 = duplicate_per_spec histW1 100 itemC1 :=
  (C1_dedup_amended histW1 [] itemC1).2.2.2 100 (by
    intro k t hk
    unfold histW1 at hk
    by_cases he : k = md5_hex "a|"
    · rw [if_pos he] at hk
      injection hk with h
      omega
    · rw [if_neg he] at hk
      cases hk)

/-! ## Claim C2 -/

/-- Claim C2: once an item is marked, any item re-presented within the
retention window with the same title and link is a duplicate via the content
fingerprint; any item whose (non-empty) link normalizes like the marked
item's (non-empty) link is a duplicate via the URL fingerprint; in
particular, for two items sharing a non-empty link, marking the first makes
both duplicates, and `filter_duplicates` then yields no new items. -/
theorem C2_mark_then_duplicate (h : Hist) (item : Item) (now now2 : Int)
    (_hwin : now2 - now < 604800) :
    (∀ item2 : Item, item2.getTitle = item.getTitle →
      item2.getLink = item.getLink →
      is_duplicate (mark_as_analyzed h item now) item2 = true) ∧
    (∀ item2 : Item, item.getLink ≠ "" → item2.getLink ≠ "" →
      normalize_url item2.getLink = normalize_url item.getLink →
      is_duplicate (mark_as_analyzed h item now) item2 = true) ∧
    (∀ i1 i2 : Item, i1.getLink = i2.getLink → i1.getLink ≠ "" →
      is_duplicate (mark_as_analyzed h i1 now) i1 = true ∧
      is_duplicate (mark_as_analyzed h i1 now) i2 = true ∧
      (filter_duplicates (mark_as_analyzed h i1 now) [i1, i2]).1 = []) := by
  have hnews : ∀ (ha : Hist) (a b : Item), a.getTitle = b.getTitle →
      a.getLink = b.getLink →
      is_duplicate (mark_as_analyzed ha b now) a = true := by
    intro ha a b ht hl
    have heq : generate_news_hash a = generate_news_hash b := by
      unfold generate_news_hash
      rw [ht, hl]
    exact (is_duplicate_iff _ a).mpr
      (Or.inl (heq ▸ contains_mark_news ha b now))
  have hurl : ∀ (ha : Hist) (a b : Item), b.getLink ≠ "" → a.getLink ≠ "" →
      normalize_url a.getLink = normalize_url b.getLink →
      is_duplicate (mark_as_analyzed ha b now) a = true := by
    intro ha a b hb hna hn
    have hub : generate_url_hash b = some (md5_hex (normalize_url b.getLink)) := by
      unfold generate_url_hash
      rw [if_neg hb]
    have hua : generate_url_hash a = some (md5_hex (normalize_url b.getLink)) := by
      unfold generate_url_hash
      rw [if_neg hna, hn]
    exact (is_duplicate_iff _ a).mpr
      (Or.inr ⟨_, hua, contains_mark_url ha b now _ hub⟩)
  refine ⟨fun item2 ht hl => hnews h item2 item ht hl,
    fun item2 hb ha hn => hurl h item2 item hb ha hn,
    fun i1 i2 hl hne => ?_⟩
  have d1 : is_duplicate (mark_as_analyzed h i1 now) i1 = true :=
    hnews h i1 i1 rfl rfl
  have d2 : is_duplicate (mark_as_analyzed h i1 now) i2 = true :=
    hurl h i2 i1 hne (hl ▸ hne) (by rw [hl])
  refine ⟨d1, d2, ?_⟩
  rw [filter_duplicates_fst]
  simp [d1, d2]

/-- Witness for C2 at concrete items: after marking one item, an item with the
same link but a different title is also a duplicate, and `filter_duplicates`
returns no new items for the pair. -/
theorem C2_mark_then_duplicate_witness :
    is_duplicate
      (mark_as_analyzed emptyHist ⟨none, some "t1", some "https://x.com/a", none⟩ 5)
      ⟨none, some "t1", some "https://x.com/a", none⟩ = true ∧
    is_duplicate
      (mark_as_analyzed emptyHist ⟨none, some "t1", some "https://x.com/a", none⟩ 5)
      ⟨none, some "t2", some "https://x.com/a", none⟩ = true ∧
    (filter_duplicates
      (mark_as_analyzed emptyHist ⟨none, some "t1", some "https://x.com/a", none⟩ 5)
      [⟨none, some "t1", some "https://x.com/a", none⟩,
       ⟨none, some "t2", some "https://x.com/a", none⟩]).1 = [] :=
  (C2_mark_then_duplicate emptyHist
      ⟨none, some "t1", some "https://x.com/a", none⟩ 5 6 (by decide)).2.2
    ⟨none, some "t1", some "https://x.com/a", none⟩
    ⟨none, some "t2", some "https://x.com/a", none⟩ rfl (by decide)

/-! ## Claim C8 -/

theorem mark_frame (h : Hist) (it : Item) (now : Int) (f : String) :
    mark_as_analyzed h it now f = h f ∨
      f = generate_news_hash it ∨ generate_url_hash it = some f := by
  unfold mark_as_analyzed histInsert
  cases hu : generate_url_hash it with
  | none =>
    by_cases he : f = generate_news_hash it
    · exact Or.inr (Or.inl he)
    · left
      show (if f = generate_news_hash it then some now else h f) = h f
      rw [if_neg he]
  | some u =>
    by_cases hf : f = u
    · exact Or.inr (Or.inr (by rw [hf]))
    · by_cases he : f = generate_news_hash it
      · exact Or.inr (Or.inl he)
      · left
        show (if f = u then some now
          else if f = generate_news_hash it then some now else h f) = h f
        rw [if_neg hf, if_neg he]

theorem mark_all_frame (now : Int) :
    ∀ (l : List AnalyzedItem) (h : Hist) (f : String),
      mark_all now h l f = h f ∨
        ∃ it ∈ l, f = generate_news_hash it.base ∨
          generate_url_hash it.base = some f := by
  intro l
  induction l with
  | nil => intro h f; exact Or.inl rfl
  | cons it rest ih =>
    intro h f
    have hstep : mark_all now h (it :: rest) f =
        mark_all now (mark_as_analyzed h it.base now) rest f := rfl
    rcases ih (mark_as_analyzed h it.base now) f with h1 | h1
    · rw [hstep, h1]
      rcases mark_frame h it.base now f with h2 | h2
      · exact Or.inl h2
      · exact Or.inr ⟨it, List.mem_cons_self it rest, h2⟩
    · obtain ⟨it2, hmem, hp⟩ := h1
      rw [hstep]
      rcases ih (mark_as_analyzed h it.base now) f with h3 | h3
      · rw [h3]
        rcases mark_frame h it.base now f with h2 | h2
        · exact Or.inl h2
        · exact Or.inr ⟨it, List.mem_cons_self it rest, h2⟩
      · obtain ⟨it3, hmem3, hp3⟩ := h3
        exact Or.inr ⟨it3, List.mem_cons_of_mem _ hmem3, hp3⟩

theorem filter_duplicates_st_spec (h : Hist) (items : List Item) :
    (filter_duplicates_st h items).2 = h ∧
    (filter_duplicates_st h items).1 = filter_duplicates h items := by
  induction items with
  | nil => exact ⟨rfl, rfl⟩
  | cons it rest ih =>
    unfold filter_duplicates_st is_duplicate_st filter_duplicates
    by_cases hd : is_duplicate h it <;> simp [hd, ih.1, ih.2]

/-- Claim C8: the deduplication filter leaves the history mapping unchanged —
its state-passing form returns exactly the incoming state, and computes the
same partition as the pure function — and across a whole run every history
cell that differs from the loaded history was written by the post-analysis
marking of some analyzed item's fingerprint. -/
theorem C8_history_frame (storage : Storage) (now : Int) (apiKey : Bool)
    (oracle : Nat → GeminiOutcome) (items : List Item) (h : Hist) (f : String) :
    (filter_duplicates_st h items).2 = h ∧
    (filter_duplicates_st h items).1 = filter_duplicates h items ∧
    (run_workflow_hist storage now apiKey oracle items f =
        load_history storage now f ∨
      ∃ it ∈ analyze_with_gemini apiKey oracle
          (filter_duplicates (load_history storage now) items).1,
        f = generate_news_hash it.base ∨
          generate_url_hash it.base = some f) := by
  refine ⟨(filter_duplicates_st_spec h items).1,
    (filter_duplicates_st_spec h items).2, ?_⟩
  unfold run_workflow_hist
  by_cases hni :
      ((filter_duplicates (load_history storage now) items).1).isEmpty
  · rw [if_pos hni]
    exact Or.inl rfl
  · rw [if_neg hni]
    exact mark_all_frame now _ _ f

/-! ## Analysis helper lemmas -/

theorem attachVerdicts_no_raise (m : String → Option JsonValue)
    (hm : ∀ k, m k ≠ some JsonValue.nonDict) :
    ∀ (l : List Item) (idx : Nat), (attachVerdicts m idx l).2 = false := by
  intro l
  induction l with
  | nil => intro idx; rfl
  | cons it rest ih =>
    intro idx
    unfold attachVerdicts
    cases hk : m ("item_" ++ toString (idx + 1)) with
    | none => exact ih (idx + 1)
    | some v =>
      cases v with
      | dict w => exact ih (idx + 1)
      | nonDict => exact absurd hk (hm _)

theorem attachVerdicts_map_base (m : String → Option JsonValue) :
    ∀ (l : List Item) (idx : Nat), (attachVerdicts m idx l).2 = false →
      (attachVerdicts m idx l).1.map AnalyzedItem.base = l := by
  intro l
  induction l with
  | nil => intro idx _; rfl
  | cons it rest ih =>
    intro idx hno
    unfold attachVerdicts at hno ⊢
    cases hk : m ("item_" ++ toString (idx + 1)) with
    | none =>
      rw [hk] at hno
      simp only [List.map_cons]
      rw [ih (idx + 1) hno]
    | some v =>
      cases v with
      | dict w =>
        rw [hk] at hno
        simp only [List.map_cons]
        rw [ih (idx + 1) hno]
      | nonDict =>
        rw [hk] at hno
        exact absurd hno (by simp)

theorem processBatch_callError_eq (batch : List Item) :
    processBatch GeminiOutcome.callError batch =
      batch.map (fun it => ⟨it, none, false⟩) := rfl

theorem processBatch_unparseable_eq (t : String) (batch : List Item) :
    processBatch (GeminiOutcome.unparseable t) batch =
      batch.map
        (fun it => ⟨it, some (AiAnalysis.degraded (t.take 200)), false⟩) := rfl

theorem processBatch_parsed_eq (m : String → Option JsonValue)
    (batch : List Item) :
    processBatch (GeminiOutcome.parsed m) batch =
      (if (attachVerdicts m 0 batch).2 then
        (attachVerdicts m 0 batch).1.map
            (fun a => ⟨a.base, none, false⟩) ++
          batch.map (fun it => ⟨it, none, false⟩)
      else (attachVerdicts m 0 batch).1) := rfl

theorem map_base_nullify (l : List Item) :
    (l.map (fun it => (⟨it, none, false⟩ : AnalyzedItem))).map
      AnalyzedItem.base = l := by
  rw [List.map_map]
  exact List.map_id l

theorem map_base_degraded (t : String) (l : List Item) :
    (l.map (fun it =>
        (⟨it, some (AiAnalysis.degraded (t.take 200)), false⟩ :
          AnalyzedItem))).map AnalyzedItem.base = l := by
  rw [List.map_map]
  exact List.map_id l

theorem processBatch_map_base (o : GeminiOutcome) (batch : List Item)
    (ho : ∀ m, o = GeminiOutcome.parsed m →
      ∀ k, m k ≠ some JsonValue.nonDict) :
    (processBatch o batch).map AnalyzedItem.base = batch := by
  cases o with
  | callError =>
    rw [processBatch_callError_eq]
    exact map_base_nullify batch
  | unparseable t =>
    rw [processBatch_unparseable_eq]
    exact map_base_degraded t batch
  | parsed m =>
    have hno := attachVerdicts_no_raise m (ho m rfl) batch 0
    rw [processBatch_parsed_eq,
      if_neg (by rw [hno]; exact Bool.false_ne_true)]
    exact attachVerdicts_map_base m batch 0 hno

theorem sublist_processBatch (o : GeminiOutcome) (batch : List Item) :
    List.Sublist batch ((processBatch o batch).map AnalyzedItem.base) := by
  cases o with
  | callError =>
    rw [processBatch_callError_eq, map_base_nullify]
  | unparseable t =>
    rw [processBatch_unparseable_eq, map_base_degraded]
  | parsed m =>
    by_cases hr : (attachVerdicts m 0 batch).2
    · rw [processBatch_parsed_eq, if_pos hr, List.map_append,
        map_base_nullify]
      exact List.sublist_append_right _ batch
    · have hf : (attachVerdicts m 0 batch).2 = false := by
        revert hr
        cases (attachVerdicts m 0 batch).2 <;> simp
      rw [processBatch_parsed_eq,
        if_neg (by rw [hf]; exact Bool.false_ne_true),
        attachVerdicts_map_base m batch 0 hf]

theorem sublist_analyzeGo (oracle : Nat → GeminiOutcome) :
    ∀ (k : Nat) (l : List Item), l.length ≤ k → ∀ bIdx,
      List.Sublist l ((analyzeGo oracle bIdx l).map AnalyzedItem.base) := by
  intro k
  induction k with
  | zero =>
    intro l hl bIdx
    have hnil : l = [] := List.eq_nil_of_length_eq_zero (Nat.le_zero.mp hl)
    subst hnil
    simp only [analyzeGo, List.map_nil]
    exact List.nil_sublist []
  | succ k ih =>
    intro l hl bIdx
    cases l with
    | nil =>
      simp only [analyzeGo, List.map_nil]
      exact List.nil_sublist []
    | cons x xs =>
      simp only [analyzeGo, List.map_append]
      have h1 := sublist_processBatch (oracle bIdx) ((x :: xs).take 5)
      have h2 := ih ((x :: xs).drop 5)
        (by simp only [List.length_drop, List.length_cons] at hl ⊢; omega)
        (bIdx + 1)
      have h3 := List.Sublist.append h1 h2
      rw [List.take_append_drop 5 (x :: xs)] at h3
      exact h3

theorem analyzeGo_map_base (oracle : Nat → GeminiOutcome)
    (hok : ∀ bIdx m, oracle bIdx = GeminiOutcome.parsed m →
      ∀ k, m k ≠ some JsonValue.nonDict) :
    ∀ (k : Nat) (l : List Item), l.length ≤ k → ∀ bIdx,
      (analyzeGo oracle bIdx l).map AnalyzedItem.base = l := by
  intro k
  induction k with
  | zero =>
    intro l hl bIdx
    have hnil : l = [] := List.eq_nil_of_length_eq_zero (Nat.le_zero.mp hl)
    subst hnil
    simp [analyzeGo]
  | succ k ih =>
    intro l hl bIdx
    cases l with
    | nil => simp [analyzeGo]
    | cons x xs =>
      simp only [analyzeGo]
      rw [List.map_append, processBatch_map_base _ _ (hok bIdx),
        ih ((x :: xs).drop 5)
          (by simp only [List.length_drop, List.length_cons] at hl ⊢; omega)
          (bIdx + 1)]
      exact List.take_append_drop 5 (x :: xs)

/-! ## Claim C3 -/

/-- Claim C3 fails as stated: on a batch of two items whose parsed reply maps
`item_1` to a verdict object and `item_2` to a non-object JSON value, the
reconciliation appends the first item, the `.get` call on the non-object
raises mid-batch, and the outer `except` appends the whole batch once more —
the first item appears twice in the output, so the output is not the input
list with each item exactly once. -/
theorem C3_cex :
    (analyze_with_gemini true oracleC3 [itemC3a, itemC3b]).map
        AnalyzedItem.base = [itemC3a, itemC3a, itemC3b] ∧
    itemC3a ≠ itemC3b ∧
    (analyze_with_gemini true oracleC3 [itemC3a, itemC3b]).map
        AnalyzedItem.base ≠ [itemC3a, itemC3b] := by
  have ht : ([itemC3a, itemC3b] : List Item).take 5 = [itemC3a, itemC3b] := rfl
  have hd : ([itemC3a, itemC3b] : List Item).drop 5 = [] := rfl
  have heval : analyze_with_gemini true oracleC3 [itemC3a, itemC3b] =
      processBatch (oracleC3 0) [itemC3a, itemC3b] := by
    show analyzeGo oracleC3 0 [itemC3a, itemC3b] = _
    simp only [analyzeGo]
    rw [ht, hd]
    simp only [analyzeGo]
    exact List.append_nil _
  rw [heval]
  refine ⟨by decide, by decide, by decide⟩

/-- Claim C3 (amended): with the Gemini key present (the keyless path is
claim C10's subject), every input item appears *at least* once in the
analysis output, in input order (the input is a sublist of the output's
underlying items); and the output is exactly the input — every item exactly
once — whenever no parsed reply maps a reconciliation key to a non-object
JSON value.  When such a value occurs, the `AttributeError` raised mid-batch
reaches the outer handler, which appends the already-appended prefix of the
batch a second time (with null verdicts). -/
theorem C3_analysis_amended (apiKey : Bool)
    (oracle : Nat → GeminiOutcome) (items : List Item) (hk : apiKey = true) :
    List.Sublist items
      ((analyze_with_gemini apiKey oracle items).map AnalyzedItem.base) ∧
    ((∀ bIdx m, oracle bIdx = GeminiOutcome.parsed m →
        ∀ k, m k ≠ some JsonValue.nonDict) →
      (analyze_with_gemini apiKey oracle items).map AnalyzedItem.base =
        items) := by
  subst hk
  constructor
  · show List.Sublist items ((analyzeGo oracle 0 items).map AnalyzedItem.base)
    exact sublist_analyzeGo oracle items.length items le_rfl 0
  · intro hok
    show (analyzeGo oracle 0 items).map AnalyzedItem.base = items
    exact analyzeGo_map_base oracle hok items.length items le_rfl 0

/-- Witness for C3's amended theorem: seven concrete items (batched 5 + 2)
under an oracle whose first batch parses with only `item_1` present — a
verdict object — and whose second batch's call raises; all seven items
appear in the output exactly once, in order. -/
theorem C3_analysis_amended_witness :
    List.Sublist itemsW3
      ((analyze_with_gemini true oracleW3 itemsW3).map AnalyzedItem.base) ∧
    (analyze_with_gemini true oracleW3 itemsW3).map AnalyzedItem.base =
      itemsW3 := by
  have h := C3_analysis_amended true oracleW3 itemsW3 rfl
  refine ⟨h.1, h.2 ?_⟩
  intro bIdx m hm k
  unfold oracleW3 at hm
  by_cases hb : bIdx = 0
  · rw [if_pos hb] at hm
    injection hm with hm2
    subst hm2
    by_cases hk : k = "item_1" <;> simp [hk]
  · rw [if_neg hb] at hm
    cases hm

/-! ## Sampling helper lemmas -/

theorem get_cons_eraseIdx_perm {α : Type} :
    ∀ (l : List α) (i : Nat) (h : i < l.length),
      List.Perm (l.get ⟨i, h⟩ :: l.eraseIdx i) l := by
  intro l
  induction l with
  | nil => intro i h; exact absurd h (Nat.not_lt_zero i)
  | cons x xs ih =>
    intro i h
    cases i with
    | zero => exact List.Perm.refl _
    | succ j =>
      have hj : j < xs.length := Nat.lt_of_succ_lt_succ h
      show List.Perm (xs.get ⟨j, hj⟩ :: x :: xs.eraseIdx j) (x :: xs)
      exact (List.Perm.swap x (xs.get ⟨j, hj⟩) (xs.eraseIdx j)).trans
        ((ih j hj).cons x)

theorem randomSample_subperm (choose : Nat → Nat) :
    ∀ (m : Nat) (l : List AnalyzedItem), List.Subperm (randomSample choose m l) l := by
  intro m
  induction m with
  | zero => intro l; exact List.nil_subperm
  | succ m ih =>
    intro l
    cases l with
    | nil => exact List.nil_subperm
    | cons x xs =>
      have hlt : choose m % (x :: xs).length < (x :: xs).length :=
        Nat.mod_lt _ (Nat.succ_pos _)
      refine List.Subperm.trans ?_
        (get_cons_eraseIdx_perm (x :: xs)
          (choose m % (x :: xs).length) hlt).subperm
      exact (List.subperm_cons _).mpr (ih _)

theorem randomSample_length (choose : Nat → Nat) :
    ∀ (m : Nat) (l : List AnalyzedItem),
      (randomSample choose m l).length = min m l.length := by
  intro m
  induction m with
  | zero => intro l; simp [randomSample]
  | succ m ih =>
    intro l
    cases l with
    | nil => simp [randomSample]
    | cons x xs =>
      have hlt : choose m % (x :: xs).length < (x :: xs).length :=
        Nat.mod_lt _ (Nat.succ_pos _)
      have he := List.length_eraseIdx_add_one hlt
      show ((x :: xs).get ⟨_, hlt⟩ ::
        randomSample choose m
          ((x :: xs).eraseIdx (choose m % (x :: xs).length))).length =
        min (m + 1) (x :: xs).length
      rw [List.length_cons, ih]
      simp only [List.length_cons] at he ⊢
      omega

/-! ## Claim C9 -/

/-- Claim C9: the selection step returns only flagged opportunities, never
more than 3 of them, never more than there are flagged items; nothing is
drawn when zero items are flagged; on a non-empty opportunity list it draws
exactly `min k n` items (for the externally drawn `k = randint(1, 3)`),
without replacement (the selection is a sub-permutation of the opportunity
list). -/
theorem C9_selection_bounds (analyzed : List AnalyzedItem)
    (choose : Nat → Nat) (k : Nat) (hk1 : 1 ≤ k) (hk3 : k ≤ 3) :
    (∀ x ∈ select_opportunities choose k analyzed, x.is_opportunity = true) ∧
    (select_opportunities choose k analyzed).length ≤ 3 ∧
    (select_opportunities choose k analyzed).length ≤
      (filter_opportunities analyzed).length ∧
    (filter_opportunities analyzed = [] →
      select_opportunities choose k analyzed = []) ∧
    (filter_opportunities analyzed ≠ [] →
      (select_opportunities choose k analyzed).length =
        min k (filter_opportunities analyzed).length) ∧
    List.Subperm (select_opportunities choose k analyzed)
      (filter_opportunities analyzed) := by
  have hsel : select_opportunities choose k analyzed =
      (if (filter_opportunities analyzed).isEmpty then []
       else randomSample choose
         (min k (filter_opportunities analyzed).length)
         (filter_opportunities analyzed)) := rfl
  by_cases hemp : (filter_opportunities analyzed).isEmpty
  · rw [hsel, if_pos hemp]
    have hnil : filter_opportunities analyzed = [] :=
      List.isEmpty_iff.mp hemp
    refine ⟨by simp, by simp, by simp, fun _ => rfl, fun hne => ?_,
      List.nil_subperm⟩
    exact absurd hnil hne
  · rw [hsel, if_neg hemp]
    have hsub : List.Subperm
        (randomSample choose
          (min k (filter_opportunities analyzed).length)
          (filter_opportunities analyzed))
        (filter_opportunities analyzed) :=
      randomSample_subperm choose _ _
    have hlen := randomSample_length choose
      (min k (filter_opportunities analyzed).length)
      (filter_opportunities analyzed)
    refine ⟨fun x hx => ?_, by rw [hlen]; omega, by rw [hlen]; omega,
      fun habs => ?_, fun _ => by rw [hlen]; omega, hsub⟩
    · have hmem := hsub.subset hx
      exact (List.mem_filter.mp hmem).2
    · exact absurd habs (by simpa using hemp)

/-- Witness for C9: three concrete analyzed items, two of them flagged, with
`k = 2` and a first-index chooser. -/
theorem C9_selection_bounds_witness :
    (∀ x ∈ select_opportunities (fun _ => 0) 2 analyzedW9,
      x.is_opportunity = true) ∧
    (select_opportunities (fun _ => 0) 2 analyzedW9).length ≤ 3 ∧
    (select_opportunities (fun _ => 0) 2 analyzedW9).length ≤
      (filter_opportunities analyzedW9).length ∧
    (filter_opportunities analyzedW9 = [] →
      select_opportunities (fun _ => 0) 2 analyzedW9 = []) ∧
    (filter_opportunities analyzedW9 ≠ [] →
      (select_opportunities (fun _ => 0) 2 analyzedW9).length =
        min 2 (filter_opportunities analyzedW9).length) ∧
    List.Subperm (select_opportunities (fun _ => 0) 2 analyzedW9)
      (filter_opportunities analyzedW9) :=
  C9_selection_bounds analyzedW9 (fun _ => 0) 2 (by decide) (by decide)

/-! ## Claim C10 -/

/-- Claim C10: with the Gemini API key absent the analysis step returns `[]`
— not the input items with degraded verdicts — so no item is marked into the
history: the run leaves the loaded history unchanged and a second run over
the same (non-empty) item list finds exactly the same new items again. -/
theorem C10_no_key (storage : Storage) (now : Int)
    (oracle : Nat → GeminiOutcome) (items : List Item) (_hne : items ≠ []) :
    analyze_with_gemini false oracle
      (filter_duplicates (load_history storage now) items).1 = [] ∧
    run_workflow_hist storage now false oracle items =
      load_history storage now ∧
    (filter_duplicates
        (run_workflow_hist storage now false oracle items) items).1 =
      (filter_duplicates (load_history storage now) items).1 := by
  have hrun : run_workflow_hist storage now false oracle items =
      load_history storage now := by
    show (if ((filter_duplicates (load_history storage now) items).1).isEmpty
        then load_history storage now
        else mark_all now (load_history storage now)
          (analyze_with_gemini false oracle
            (filter_duplicates (load_history storage now) items).1)) =
      load_history storage now
    split
    · rfl
    · rfl
  exact ⟨rfl, hrun, by rw [hrun]⟩

/-- Witness for C10: one fresh item, missing storage, a raising oracle. -/
theorem C10_no_key_witness :
    analyze_with_gemini false (fun _ => GeminiOutcome.callError)
      (filter_duplicates (load_history Storage.missing 0)
        [⟨none, some "t", none, none⟩]).1 = [] ∧
    run_workflow_hist Storage.missing 0 false
      (fun _ => GeminiOutcome.callError)
      [⟨none, some "t", none, none⟩] = load_history Storage.missing 0 ∧
    (filter_duplicates (run_workflow_hist Storage.missing 0 false
        (fun _ => GeminiOutcome.callError) [⟨none, some "t", none, none⟩])
      [⟨none, some "t", none, none⟩]).1 =
      (filter_duplicates (load_history Storage.missing 0)
        [⟨none, some "t", none, none⟩]).1 :=
  C10_no_key Storage.missing 0 (fun _ => GeminiOutcome.callError)
    [⟨none, some "t", none, none⟩] (by decide)

end CryptoNews
